import Mathlib

/-!
Verification of the BotFramework-Composer language-tooling layer.

The development shallowly embeds two bodies of code:

* `Header` — embedded directly from
  `Composer/packages/client/src/components/Header.tsx`: the locale dropdown
  handler `onLanguageChange`, the `languageListOptions` memo, and the
  `showUpdateAvailableIcon` flag that gates the update icon in the JSX.

* `LgServer` — the LG language server core (template parser, document
  store, resolver of imports, semantic analyzer, completion provider,
  protocol session state machine).  Its sources are not available here, only its
  package manifest; every definition in that namespace is modelled from the
  specification document, as its doc comment states.
-/

namespace Header

/-- A Fluent UI dropdown option as consumed by `onLanguageChange`
(`Header.tsx` lines 250-268): the fields the handler and the memo read. -/
structure IDropdownOption where
  key : String
  title : String
  text : String
deriving DecidableEq, Repr

/-- A recorded `setLocale(selectedLang, projectId)` dispatcher call. -/
structure SetLocaleCall where
  language : String
  projectId : String
deriving DecidableEq, Repr

/-- Embeds `onLanguageChange` (`Header.tsx` lines 263-268):
`const selectedLang = option?.key as string;
 if (selectedLang && selectedLang !== locale) { setLocale(selectedLang, projectId); }`.
The returned value is the dispatcher call made, if any; `none` means no call.
JavaScript string truthiness makes the guard fail exactly when `selectedLang`
is `undefined` (no option) or the empty string. -/
def onLanguageChange (locale : String) (projectId : String)
    (option : Option IDropdownOption) : Option SetLocaleCall :=
  let selectedLang : Option String := Option.map IDropdownOption.key option
  match selectedLang with
  | some k => if k ≠ "" ∧ k ≠ locale then some ⟨k, projectId⟩ else none
  | none => none

/-- The locale recoil state after the handler runs: `setLocale` stores the
selected language; with no dispatcher call the state is untouched. -/
def localeAfter (locale : String) (projectId : String)
    (option : Option IDropdownOption) : String :=
  match onLanguageChange locale projectId option with
  | some c => c.language
  | none => locale

/-- One entry of the `languageListTemplates(languages, locale, defaultLanguage)`
result consumed by the `languageListOptions` memo (`Header.tsx` lines 250-261);
the memo reads `language`, `locale` and `isEnabled` of each entry. -/
structure LanguageTemplateItem where
  language : String
  locale : String
  isEnabled : Bool
deriving DecidableEq, Repr

/-- Embeds the `languageListOptions` memo body (`Header.tsx` lines 250-261):
filter the template list by truthy `isEnabled`, then map each item to
`{ key: locale, title: locale, text: language }`. -/
def languageListOptions (languageList : List LanguageTemplateItem) :
    List IDropdownOption :=
  let enableLanguages := languageList.filter (fun item => item.isEnabled)
  enableLanguages.map (fun item => ⟨item.locale, item.locale, item.language⟩)

/-- App updater status values, from `AppUpdaterStatus` in `../constants`
(imported by `Header.tsx` line 33). -/
inductive AppUpdaterStatus
  | idle
  | updateInProgress
  | updateAvailable
  | updateUnavailable
  | updateFailed
deriving DecidableEq, Repr

/-- Embeds `Header.tsx` line 248:
`const showUpdateAvailableIcon = status === AppUpdaterStatus.UPDATE_AVAILABLE && !showing;`. -/
def showUpdateAvailableIcon (status : AppUpdaterStatus) (showing : Bool) : Bool :=
  (status == AppUpdaterStatus.updateAvailable) && !showing

/-- The elements that can appear in the header's right section
(`Header.tsx` lines 315-387). -/
inductive HeaderElement
  | botController
  | webChatButton
  | notificationButton
  | rocketButton
  | startBotTeachingBubble
  | updateAvailableIcon
  | authCard
deriving DecidableEq, Repr

/-- Embeds the right-section JSX (`Header.tsx` lines 315-387) as the list of
elements it renders: each `{cond && (<.../>)}` guard becomes a conditional
segment, in document order; the update icon is gated by
`showUpdateAvailableIcon` (line 376). -/
def rightSectionElements (isShow : Bool) (showStartBotTeachingBubble : Bool)
    (status : AppUpdaterStatus) (showing : Bool) : List HeaderElement :=
  (if isShow then [HeaderElement.botController] else [])
    ++ (if isShow then [HeaderElement.webChatButton] else [])
    ++ [HeaderElement.notificationButton]
    ++ (if isShow then [HeaderElement.rocketButton] else [])
    ++ (if isShow && showStartBotTeachingBubble
        then [HeaderElement.startBotTeachingBubble] else [])
    ++ (if showUpdateAvailableIcon status showing
        then [HeaderElement.updateAvailableIcon] else [])
    ++ [HeaderElement.authCard]

end Header

namespace LgServer

/-- Modelled from the spec: "Document: uri, version (monotonic integer), full
text".  The mutable per-document state held by the Document Store. -/
structure DocState where
  text : String
  version : Int
deriving DecidableEq, Repr

/-- Modelled from the spec: "Per-document edits arrive serially and must be
applied in strictly increasing version order; an edit bearing a version not
greater than the last-applied version is rejected and the existing state is
retained unchanged." -/
def applyEdit (d : DocState) (newVersion : Int) (newText : String) : DocState :=
  if d.version < newVersion then ⟨newText, newVersion⟩ else d

/-- Diagnostic severities, from the spec's data model:
"Diagnostic: range, severity (Error/Warning/Information), code, message". -/
inductive Severity
  | error
  | warning
  | info
deriving DecidableEq, Repr

/-- Diagnostic codes, from the spec's error taxonomy (§7): SyntaxError,
ReferenceError, StructuralError, ProtocolError, IOError. -/
inductive DiagCode
  | syntaxError
  | referenceError
  | structuralError
  | protocolError
  | ioError
deriving DecidableEq, Repr

/-- Modelled from the spec: a positioned, severity-tagged diagnostic; the
range is abstracted to the line it is localized to. -/
structure Diagnostic where
  line : Nat
  severity : Severity
  code : DiagCode
  message : String
deriving DecidableEq, Repr

/-- Modelled from the spec: the classification of one line of the
line-oriented grammar (§4.1) — an import line, a template header line naming
a template, a body line (bulleted text / structured / block form), a blank
line, or an unrecoverable line matching none of the forms. -/
inductive LineKind
  | importLine
  | headerLine
  | bodyLine
  | blankLine
  | badLine
deriving DecidableEq, Repr

/-- Whitespace characters recognized when trimming a line. -/
def isWs (c : Char) : Bool :=
  c = ' ' || c = '\t' || c = '\r'

/-- Trim leading and trailing whitespace from a line's characters. -/
def trimChars (cs : List Char) : List Char :=
  ((cs.dropWhile isWs).reverse.dropWhile isWs).reverse

/-- Modelled from the spec: classify one raw line of the document.  Import
lines start with the bracketed import form, header lines with the template
header sigil, body lines with the bullet; a whitespace-only line is blank;
anything else is unrecoverable. -/
def classify (s : String) : LineKind :=
  match trimChars s.data with
  | [] => LineKind.blankLine
  | c :: _ =>
    if c = '#' then LineKind.headerLine
    else if c = '[' then LineKind.importLine
    else if c = '-' then LineKind.bodyLine
    else LineKind.badLine

/-- Modelled from the spec: import lines and template header lines are the
recognizable boundaries at which the parser resynchronizes after an error. -/
def isBoundary (s : String) : Bool :=
  classify s == LineKind.headerLine || classify s == LineKind.importLine

/-- Modelled from the spec: the template name on a header line — the text
after the header sigil, up to the optional parameter list. -/
def headerName (s : String) : String :=
  let t := (trimChars s.data).dropWhile (fun c => c = '#')
  String.mk (trimChars (t.takeWhile (fun c => c ≠ '(')))

/-- Modelled from the spec: the import target named by an import line
(abstracted to the trimmed line). -/
def importTarget (s : String) : String :=
  String.mk (trimChars s.data)

/-- Modelled from the spec: a parsed template definition — name and body
lines (the body's segment structure is opaque to the claims proved here). -/
structure Template where
  name : String
  body : List String
deriving DecidableEq, Repr

/-- Modelled from the spec: the Template Parser's output — an AST (template
definitions plus import statements) together with syntax diagnostics. -/
structure ParseResult where
  templates : List Template
  imports : List String
  diags : List Diagnostic
deriving DecidableEq, Repr

/-- Modelled from the spec: the parser's running state — either normally
parsing (with the currently open template header and accumulated body lines,
if any), or skipping lines after an unrecoverable line until the next
boundary. -/
inductive PState
  | normal (cur : Option (String × List String))
  | skipping
deriving DecidableEq, Repr

/-- Close the currently open template, if any, prepending it to the result
parsed from the rest of the file. -/
def closeTemplate (cur : Option (String × List String)) (r : ParseResult) :
    ParseResult :=
  match cur with
  | none => r
  | some (n, b) => { r with templates := ⟨n, b.reverse⟩ :: r.templates }

/-- The syntax diagnostic the parser emits at an unrecoverable line. -/
def unrecoverableDiag (i : Nat) : Diagnostic :=
  ⟨i, Severity.error, DiagCode.syntaxError, "unrecognized line"⟩

/-- Modelled from the spec: the line-oriented template parser (§4.1).  It is
a total function — it always produces an AST plus diagnostics and never
throws.  A header line closes the open template and opens a new one; body
lines accumulate into the open template; an import line records its target;
a body line outside any template or a line matching no form is unrecoverable:
the parser emits a syntax diagnostic localized to that line and skips to the
next boundary (header or import line), where it resumes normally. -/
def parseFrom : Nat → PState → List String → ParseResult
  | _, PState.normal cur, [] => closeTemplate cur ⟨[], [], []⟩
  | _, PState.skipping, [] => ⟨[], [], []⟩
  | i, PState.skipping, l :: ls =>
    match classify l with
    | LineKind.headerLine =>
      parseFrom (i + 1) (PState.normal (some (headerName l, []))) ls
    | LineKind.importLine =>
      let r := parseFrom (i + 1) (PState.normal none) ls
      { r with imports := importTarget l :: r.imports }
    | _ => parseFrom (i + 1) PState.skipping ls
  | i, PState.normal cur, l :: ls =>
    match classify l with
    | LineKind.blankLine => parseFrom (i + 1) (PState.normal cur) ls
    | LineKind.headerLine =>
      let r := parseFrom (i + 1) (PState.normal (some (headerName l, []))) ls
      closeTemplate cur r
    | LineKind.importLine =>
      let r := parseFrom (i + 1) (PState.normal none) ls
      closeTemplate cur { r with imports := importTarget l :: r.imports }
    | LineKind.bodyLine =>
      match cur with
      | some (n, b) => parseFrom (i + 1) (PState.normal (some (n, l :: b))) ls
      | none =>
        let r := parseFrom (i + 1) PState.skipping ls
        { r with diags := unrecoverableDiag i :: r.diags }
    | LineKind.badLine =>
      let r := parseFrom (i + 1) PState.skipping ls
      closeTemplate cur { r with diags := unrecoverableDiag i :: r.diags }

/-- Modelled from the spec: parse a document given as a list of lines. -/
def parse (ls : List String) : ParseResult :=
  parseFrom 0 (PState.normal none) ls

/-- Modelled from the spec: parse raw document text, split at line breaks. -/
def parseText (t : String) : ParseResult :=
  parse (t.splitOn "\n")

theorem closeTemplate_templates_congr (cur : Option (String × List String))
    (r₁ r₂ : ParseResult) (h : r₁.templates = r₂.templates) :
    (closeTemplate cur r₁).templates = (closeTemplate cur r₂).templates := by
  rcases cur with _ | ⟨n, b⟩
  · simpa [closeTemplate] using h
  · simp [closeTemplate, h]

theorem parseFrom_templates_indep (ls : List String) :
    ∀ i j st, (parseFrom i st ls).templates = (parseFrom j st ls).templates := by
  induction ls with
  | nil => intro i j st; cases st <;> rfl
  | cons l ls ih =>
    intro i j st
    cases st with
    | skipping =>
      cases hc : classify l with
      | importLine => simp only [parseFrom, hc]; exact ih _ _ _
      | headerLine => simp only [parseFrom, hc]; exact ih _ _ _
      | blankLine => simp only [parseFrom, hc]; exact ih _ _ _
      | bodyLine => simp only [parseFrom, hc]; exact ih _ _ _
      | badLine => simp only [parseFrom, hc]; exact ih _ _ _
    | normal cur =>
      cases hc : classify l with
      | blankLine => simp only [parseFrom, hc]; exact ih _ _ _
      | headerLine =>
        simp only [parseFrom, hc]
        exact closeTemplate_templates_congr _ _ _ (ih _ _ _)
      | importLine =>
        simp only [parseFrom, hc]
        exact closeTemplate_templates_congr _ _ _ (ih _ _ _)
      | bodyLine =>
        rcases cur with _ | ⟨n, b⟩
        · simp only [parseFrom, hc]; exact ih _ _ _
        · simp only [parseFrom, hc]; exact ih _ _ _
      | badLine =>
        simp only [parseFrom, hc]
        exact closeTemplate_templates_congr _ _ _ (ih _ _ _)

theorem parseFrom_skip_junk :
    ∀ (junk : List String) (i : Nat) (post : List String),
      (∀ l ∈ junk, isBoundary l = false) →
      parseFrom i PState.skipping (junk ++ post)
        = parseFrom (i + junk.length) PState.skipping post := by
  intro junk
  induction junk with
  | nil => intro i post _; simp
  | cons l junk ih =>
    intro i post h
    have hl : isBoundary l = false := h l (List.mem_cons_self l junk)
    have hrest : ∀ x ∈ junk, isBoundary x = false :=
      fun x hx => h x (List.mem_cons_of_mem l hx)
    cases hc : classify l with
    | headerLine => exact absurd hl (by simp [isBoundary, hc])
    | importLine => exact absurd hl (by simp [isBoundary, hc])
    | blankLine =>
      simp only [List.cons_append, parseFrom, hc, List.append_eq]
      rw [ih (i + 1) post hrest]
      congr 1
      simp only [List.length_cons]
      omega
    | bodyLine =>
      simp only [List.cons_append, parseFrom, hc, List.append_eq]
      rw [ih (i + 1) post hrest]
      congr 1
      simp only [List.length_cons]
      omega
    | badLine =>
      simp only [List.cons_append, parseFrom, hc, List.append_eq]
      rw [ih (i + 1) post hrest]
      congr 1
      simp only [List.length_cons]
      omega

theorem parseFrom_skip_boundary (i : Nat) (l : String) (ls : List String)
    (h : isBoundary l = true) :
    parseFrom i PState.skipping (l :: ls)
      = parseFrom i (PState.normal none) (l :: ls) := by
  cases hc : classify l with
  | headerLine => simp [parseFrom, hc, closeTemplate]
  | importLine => simp [parseFrom, hc, closeTemplate]
  | blankLine => exact absurd h (by simp [isBoundary, hc])
  | bodyLine => exact absurd h (by simp [isBoundary, hc])
  | badLine => exact absurd h (by simp [isBoundary, hc])

/-- C1: for every document, a line the parser cannot recognize produces a
syntax diagnostic localized to that line (line 0 here); parsing resumes at
the next boundary (template header or import line), so the templates after
the malformed stretch are exactly the templates of the recovered tail —
one malformed line never blanks out the rest of the file.  The parser
itself is a total function: it returns an AST plus diagnostics on every
input and never throws. -/
theorem parser_error_recovery (b : String) (junk post : List String)
    (hb : classify b = LineKind.badLine)
    (hjunk : ∀ l ∈ junk, isBoundary l = false)
    (hpost : ∀ l ∈ post.take 1, isBoundary l = true) :
    (parse (b :: (junk ++ post))).templates = (parse post).templates ∧
    unrecoverableDiag 0 ∈ (parse (b :: (junk ++ post))).diags := by
  have hstep : parse (b :: (junk ++ post))
      = { parseFrom (1 + junk.length) PState.skipping post with
          diags := unrecoverableDiag 0
            :: (parseFrom (1 + junk.length) PState.skipping post).diags } := by
    have h1 : parse (b :: (junk ++ post))
        = { parseFrom 1 PState.skipping (junk ++ post) with
            diags := unrecoverableDiag 0
              :: (parseFrom 1 PState.skipping (junk ++ post)).diags } := by
      simp [parse, parseFrom, hb, closeTemplate]
    rw [h1, parseFrom_skip_junk junk 1 post hjunk]
  cases post with
  | nil =>
    refine ⟨?_, ?_⟩
    · rw [hstep]; rfl
    · rw [hstep]; exact List.mem_cons_self _ _
  | cons p ps =>
    have hp : isBoundary p = true := hpost p (by simp)
    rw [parseFrom_skip_boundary _ p ps hp] at hstep
    refine ⟨?_, ?_⟩
    · rw [hstep]
      simpa using
        parseFrom_templates_indep (p :: ps) (1 + junk.length) 0 (PState.normal none)
    · rw [hstep]; exact List.mem_cons_self _ _

/-- Witness for `parser_error_recovery` at the concrete document
`["@@@", "junk", "# Bye", "- bye"]`. -/
theorem parser_error_recovery_witness :
    classify "@@@" = LineKind.badLine ∧
    (∀ l ∈ ["junk"], isBoundary l = false) ∧
    (∀ l ∈ (["# Bye", "- bye"] : List String).take 1, isBoundary l = true) ∧
    ((parse ("@@@" :: (["junk"] ++ ["# Bye", "- bye"]))).templates
        = (parse ["# Bye", "- bye"]).templates ∧
      unrecoverableDiag 0 ∈ (parse ("@@@" :: (["junk"] ++ ["# Bye", "- bye"]))).diags) :=
  ⟨by decide, by decide, by decide,
    parser_error_recovery "@@@" ["junk"] ["# Bye", "- bye"]
      (by decide) (by decide) (by decide)⟩

/-- C2: the Document Store's version gate — an edit whose version is not
strictly greater than the last-applied version is rejected, leaving the
document state (text and version) exactly what it was after the newer
version; an edit with a strictly greater version is applied. -/
theorem docstore_version_gate (d : DocState) (v : Int) (t : String) :
    (v ≤ d.version → applyEdit d v t = d) ∧
    (d.version < v → applyEdit d v t = ⟨t, v⟩) := by
  constructor
  · intro h
    simp [applyEdit, not_lt.mpr h]
  · intro h
    simp [applyEdit, h]

/-- Witness for `docstore_version_gate`: version 4 after version 5 is
rejected, version 6 after version 5 is applied. -/
theorem docstore_version_gate_witness :
    ((4 : Int) ≤ (5 : Int) ∧ applyEdit ⟨"B", 5⟩ 4 "A" = ⟨"B", 5⟩) ∧
    ((5 : Int) < (6 : Int) ∧ applyEdit ⟨"B", 5⟩ 6 "C" = ⟨"C", 6⟩) :=
  ⟨⟨by decide, (docstore_version_gate ⟨"B", 5⟩ 4 "A").1 (by decide)⟩,
   ⟨by decide, (docstore_version_gate ⟨"B", 5⟩ 6 "C").2 (by decide)⟩⟩

/-- Modelled from the spec: a template definition as seen by the Semantic
Analyzer — a name plus its defining location, all at one precedence level
(the importing file's own definitions). -/
structure TemplateDef where
  name : String
  loc : Nat
deriving DecidableEq, Repr

/-- A semantic diagnostic: its code, the offending name, and the data field
referencing the definition locations involved. -/
structure SemDiag where
  code : DiagCode
  name : String
  locations : List Nat
deriving DecidableEq, Repr

/-- The defining locations of name `n` among the definitions of one
precedence level. -/
def locationsOf (n : String) (defs : List TemplateDef) : List Nat :=
  (defs.filter (fun d => d.name == n)).map TemplateDef.loc

/-- Modelled from the spec: the names defined more than once at this
precedence level. -/
def duplicatedNames (defs : List TemplateDef) : List String :=
  ((defs.map TemplateDef.name).dedup).filter
    (fun n => 2 ≤ (locationsOf n defs).length)

/-- Modelled from the spec: "two definitions at the same precedence level
with the same name is a structural error referencing both locations" — the
Semantic Analyzer emits one StructuralError per duplicated name, carrying
all of that name's definition locations. -/
def duplicateDiags (defs : List TemplateDef) : List SemDiag :=
  (duplicatedNames defs).map
    (fun n => ⟨DiagCode.structuralError, n, locationsOf n defs⟩)

/-- C4: a scope whose definitions are exactly two templates of the same name
plus a third of a different name yields exactly one StructuralError
diagnostic, whose data references both definition locations of the
duplicated name; the differently-named third template contributes no
error. -/
theorem analyzer_duplicate_detection (n m : String) (l1 l2 l3 : Nat)
    (hnm : n ≠ m) :
    duplicateDiags [⟨n, l1⟩, ⟨n, l2⟩, ⟨m, l3⟩]
      = [⟨DiagCode.structuralError, n, [l1, l2]⟩] := by
  have h1 : ([n, n, m] : List String).dedup = [n, m] := by
    rw [List.dedup_cons_of_mem (by simp),
        List.dedup_cons_of_not_mem (by simp [hnm]),
        List.dedup_cons_of_not_mem (by simp), List.dedup_nil]
  simp [duplicateDiags, duplicatedNames, locationsOf, h1, hnm, Ne.symm hnm]

/-- Witness for `analyzer_duplicate_detection`: two templates named Foo and
one named Bar. -/
theorem analyzer_duplicate_detection_witness :
    ("Foo" ≠ "Bar") ∧
    duplicateDiags [⟨"Foo", 0⟩, ⟨"Foo", 2⟩, ⟨"Bar", 4⟩]
      = [⟨DiagCode.structuralError, "Foo", [0, 2]⟩] :=
  ⟨by decide, analyzer_duplicate_detection "Foo" "Bar" 0 2 4 (by decide)⟩

/-- Modelled from the spec: a symbol visible in a completion scope — its
name and whether it is defined locally in the current file (rather than
  imported). -/
structure Symbol where
  name : String
  isLocal : Bool
deriving DecidableEq, Repr

/-- Case-insensitive lexicographic order on names. -/
def nameLe (a b : String) : Prop :=
  a.toLower ≤ b.toLower

instance : DecidableRel nameLe := fun a b =>
  inferInstanceAs (Decidable (a.toLower ≤ b.toLower))

instance : IsTotal String nameLe :=
  ⟨fun a b => le_total a.toLower b.toLower⟩

instance : IsTrans String nameLe :=
  ⟨fun _ _ _ h1 h2 => le_trans h1 h2⟩

/-- Modelled from the spec: case-insensitive prefix match of the partially
typed token against a symbol name. -/
def matchesToken (tok : String) (s : Symbol) : Bool :=
  tok.toLower.isPrefixOf s.name.toLower

/-- Modelled from the spec: the Completion provider's candidates for a
partially typed token inside an expression marker — the symbols matching by
case-insensitive prefix, locally-defined symbols ranked before imported
ones, and each rank in case-insensitive lexicographic order. -/
def completionItems (syms : List Symbol) (tok : String) : List String :=
  let m := syms.filter (matchesToken tok)
  List.insertionSort nameLe ((m.filter Symbol.isLocal).map Symbol.name)
    ++ List.insertionSort nameLe
        ((m.filter (fun s => !s.isLocal)).map Symbol.name)

/-- C5: the completion result splits into a local segment followed by an
  imported segment; each segment is sorted case-insensitively, the local
segment holds exactly the names of locally-defined symbols matching the
token by case-insensitive prefix, and the imported segment exactly those of
  imported symbols matching — so the result is exactly the matching names,
locals ranked before imports. -/
theorem completion_ranking (syms : List Symbol) (tok : String) :
    ∃ L I, completionItems syms tok = L ++ I ∧
      L.Sorted nameLe ∧ I.Sorted nameLe ∧
      (∀ x, x ∈ L ↔ ∃ s ∈ syms,
        s.isLocal = true ∧ matchesToken tok s = true ∧ x = s.name) ∧
      (∀ x, x ∈ I ↔ ∃ s ∈ syms,
        s.isLocal = false ∧ matchesToken tok s = true ∧ x = s.name) := by
  refine ⟨_, _, rfl, List.sorted_insertionSort nameLe _,
    List.sorted_insertionSort nameLe _, ?_, ?_⟩
  · intro x
    rw [(List.perm_insertionSort nameLe _).mem_iff]
    simp only [List.mem_map, List.mem_filter]
    constructor
    · rintro ⟨s, ⟨⟨hs, hm⟩, hl⟩, hx⟩
      exact ⟨s, hs, hl, hm, hx.symm⟩
    · rintro ⟨s, hs, hl, hm, hx⟩
      exact ⟨s, ⟨⟨hs, hm⟩, hl⟩, hx.symm⟩
  · intro x
    rw [(List.perm_insertionSort nameLe _).mem_iff]
    simp only [List.mem_map, List.mem_filter, Bool.not_eq_true']
    constructor
    · rintro ⟨s, ⟨⟨hs, hm⟩, hl⟩, hx⟩
      exact ⟨s, hs, hl, hm, hx.symm⟩
    · rintro ⟨s, hs, hl, hm, hx⟩
      exact ⟨s, ⟨⟨hs, hm⟩, hl⟩, hx.symm⟩

/-- Modelled from the spec: the protocol session lifecycle states (§4.6):
Uninitialized → Initializing → Ready → ShuttingDown → Exited. -/
inductive SessionState
  | uninitialized
  | initializing
  | ready
  | shuttingDown
  | exited
deriving DecidableEq, Repr

/-- Modelled from the spec: the client messages the transport routes —
lifecycle requests and notifications, document-sync notifications, and
feature (query) requests. -/
inductive ClientMsg
  | initializeMsg
  | initializedMsg
  | shutdownMsg
  | exitMsg
  | docSyncMsg (uri : String) (version : Int) (text : String)
  | featureMsg
deriving DecidableEq, Repr

/-- Modelled from the spec: the server's whole state — the session lifecycle
state plus the Document Store (uri → document state). -/
structure ServerState where
  session : SessionState
  docs : List (String × DocState)
deriving DecidableEq, Repr

/-- Modelled from the spec: responses sent back on the protocol channel;
protocol errors use the protocol's own error-response channel. -/
inductive Response
  | okResp
  | protocolErrorResp
deriving DecidableEq, Repr

/-- Apply a document-sync edit to the store: the addressed document goes
through the Document Store's version gate (`applyEdit`). -/
def applyDocSync (docs : List (String × DocState)) (uri : String) (v : Int)
    (t : String) : List (String × DocState) :=
  docs.map (fun p => if p.1 = uri then (p.1, applyEdit p.2 v t) else p)

/-- Is this message a document-sync notification or a feature request? -/
def isDocOrFeature : ClientMsg → Bool
  | ClientMsg.docSyncMsg _ _ _ => true
  | ClientMsg.featureMsg => true
  | _ => false

/-- Modelled from the spec: one step of the Protocol Transport state machine
(§4.6).  `initialize` moves Uninitialized to Initializing, `initialized`
moves Initializing to Ready, `shutdown` moves Ready to ShuttingDown, `exit`
moves to Exited; document-sync and feature requests are accepted only in
Ready — in any other state they receive a ProtocolError response and are
otherwise no-ops. -/
def step (srv : ServerState) : ClientMsg → ServerState × Option Response
  | ClientMsg.initializeMsg =>
    if srv.session = SessionState.uninitialized then
      ({ srv with session := SessionState.initializing }, some Response.okResp)
    else (srv, some Response.protocolErrorResp)
  | ClientMsg.initializedMsg =>
    if srv.session = SessionState.initializing then
      ({ srv with session := SessionState.ready }, none)
    else (srv, none)
  | ClientMsg.shutdownMsg =>
    if srv.session = SessionState.ready then
      ({ srv with session := SessionState.shuttingDown }, some Response.okResp)
    else (srv, some Response.protocolErrorResp)
  | ClientMsg.exitMsg => ({ srv with session := SessionState.exited }, none)
  | ClientMsg.docSyncMsg uri v t =>
    if srv.session = SessionState.ready then
      ({ srv with docs := applyDocSync srv.docs uri v t }, some Response.okResp)
    else (srv, some Response.protocolErrorResp)
  | ClientMsg.featureMsg =>
    if srv.session = SessionState.ready then (srv, some Response.okResp)
    else (srv, some Response.protocolErrorResp)

/-- C6: in any session state other than Ready, a document-sync or feature
request is not processed — the step returns the server state completely
unchanged (session and document store alike, so the session stays alive)
together with a ProtocolError response on the protocol's error-response
channel. -/
theorem protocol_rejects_when_not_ready (srv : ServerState) (msg : ClientMsg)
    (hstate : srv.session ≠ SessionState.ready)
    (hmsg : isDocOrFeature msg = true) :
    step srv msg = (srv, some Response.protocolErrorResp) := by
  cases msg <;> simp_all [step, isDocOrFeature]

/-- Witness for `protocol_rejects_when_not_ready`: a feature request in the
Initializing state is rejected with a ProtocolError and changes nothing. -/
theorem protocol_rejects_when_not_ready_witness :
    (ServerState.mk SessionState.initializing []).session ≠ SessionState.ready ∧
    isDocOrFeature ClientMsg.featureMsg = true ∧
    step (ServerState.mk SessionState.initializing []) ClientMsg.featureMsg
      = (ServerState.mk SessionState.initializing [], some Response.protocolErrorResp) :=
  ⟨by decide, by decide,
    protocol_rejects_when_not_ready (ServerState.mk SessionState.initializing [])
      ClientMsg.featureMsg (by decide) (by decide)⟩

/-- Modelled from the spec: the informational diagnostic triggered when a
resolution pass re-encounters an already-visited file (an import cycle). -/
def cycleDiag (uri : String) : Diagnostic :=
  ⟨0, Severity.info, DiagCode.structuralError, uri⟩

/-- Modelled from the spec: the warning diagnostic emitted on an import
whose target cannot be read. -/
def unreadableDiag (uri : String) : Diagnostic :=
  ⟨0, Severity.warning, DiagCode.ioError, uri⟩

theorem length_filter_not_mem_cons_lt (univ visited : List String)
    (u : String) (hu : u ∈ univ) (hnv : u ∉ visited) :
    (univ.filter (fun x => decide (x ∉ u :: visited))).length
      < (univ.filter (fun x => decide (x ∉ visited))).length := by
  have hsub : List.Sublist (univ.filter (fun x => decide (x ∉ u :: visited)))
      (univ.filter (fun x => decide (x ∉ visited))) := by
    refine List.monotone_filter_right univ ?_
    intro a ha
    simp only [decide_eq_true_eq, List.mem_cons, not_or] at ha ⊢
    exact ha.2
  have hle : (univ.filter (fun x => decide (x ∉ u :: visited))).length
      ≤ (univ.filter (fun x => decide (x ∉ visited))).length :=
    hsub.length_le
  rcases Nat.lt_or_ge (univ.filter (fun x => decide (x ∉ u :: visited))).length
      (univ.filter (fun x => decide (x ∉ visited))).length with hlt | hge
  · exact hlt
  · exfalso
    have heq : univ.filter (fun x => decide (x ∉ u :: visited))
        = univ.filter (fun x => decide (x ∉ visited)) :=
      hsub.eq_of_length_le hge
    have humem : u ∈ univ.filter (fun x => decide (x ∉ visited)) := by
      simp [List.mem_filter, hu, hnv]
    rw [← heq] at humem
    simp [List.mem_filter] at humem

/-- Modelled from the spec: the Import Resolver's worklist pass (§4.2).
`g` maps a file to its direct imports, `univ` is the finite set of readable
workspace files, `stack` the remaining worklist and `visited` the files
already entered during this pass.  A file already visited is not re-entered
and yields an informational cycle diagnostic; a file outside `univ` is an
unreadable import and yields a warning; otherwise the file is marked
visited and its imports pushed.  The function recurses on the decreasing
measure (number of unvisited files, worklist length), so resolution
terminates on every graph, cyclic ones included. -/
def resolveAux (g : String → List String) (univ : List String) :
    List String → List String → List Diagnostic →
    List String × List Diagnostic
  | [], visited, diags => (visited, diags)
  | u :: stack, visited, diags =>
    if u ∈ visited then
      resolveAux g univ stack visited (diags ++ [cycleDiag u])
    else if u ∈ univ then
      resolveAux g univ (g u ++ stack) (u :: visited) diags
    else
      resolveAux g univ stack visited (diags ++ [unreadableDiag u])
termination_by stack visited _ =>
  ((univ.filter (fun x => decide (x ∉ visited))).length, stack.length)
decreasing_by
· apply Prod.Lex.right
  simp
· apply Prod.Lex.left
  apply length_filter_not_mem_cons_lt <;> assumption
· apply Prod.Lex.right
  simp

/-- Modelled from the spec: resolve the transitive import closure of `root`
within the workspace universe `univ`, starting a fresh pass (empty visited
set, no diagnostics). -/
def resolve (g : String → List String) (univ : List String) (root : String) :
    List String × List Diagnostic :=
  resolveAux g univ [root] [] []

theorem resolveAux_visited_nodup (g : String → List String)
    (univ : List String) (stack visited : List String)
    (diags : List Diagnostic) (h : visited.Nodup) :
    ((resolveAux g univ stack visited diags).1).Nodup := by
  induction stack, visited, diags using resolveAux.induct g univ with
  | case1 visited diags => simpa [resolveAux] using h
  | case2 u stack visited diags hv ih =>
    rw [resolveAux]
    simp only [if_pos hv]
    exact ih h
  | case3 u stack visited diags hv hu ih =>
    rw [resolveAux]
    simp only [if_neg hv, if_pos hu]
    exact ih (List.nodup_cons.mpr ⟨hv, h⟩)
  | case4 u stack visited diags hv hu ih =>
    rw [resolveAux]
    simp only [if_neg hv, if_neg hu]
    exact ih h

theorem resolveAux_visited_subset (g : String → List String)
    (univ : List String) (stack visited : List String)
    (diags : List Diagnostic) :
    ∀ x ∈ (resolveAux g univ stack visited diags).1,
      x ∈ univ ∨ x ∈ visited := by
  induction stack, visited, diags using resolveAux.induct g univ with
  | case1 visited diags =>
    intro x hx
    right
    simpa [resolveAux] using hx
  | case2 u stack visited diags hv ih =>
    rw [resolveAux]
    simp only [if_pos hv]
    exact ih
  | case3 u stack visited diags hv hu ih =>
    rw [resolveAux]
    simp only [if_neg hv, if_pos hu]
    intro x hx
    rcases ih x hx with hx1 | hx2
    · exact Or.inl hx1
    · rcases List.mem_cons.mp hx2 with rfl | hx3
      · exact Or.inl hu
      · exact Or.inr hx3
  | case4 u stack visited diags hv hu ih =>
    rw [resolveAux]
    simp only [if_neg hv, if_neg hu]
    exact ih

theorem resolveAux_congr (g₁ g₂ : String → List String) (univ : List String)
    (hg : ∀ u ∈ univ, g₁ u = g₂ u) (stack visited : List String)
    (diags : List Diagnostic) :
    resolveAux g₁ univ stack visited diags
      = resolveAux g₂ univ stack visited diags := by
  induction stack, visited, diags using resolveAux.induct g₁ univ with
  | case1 visited diags => rw [resolveAux, resolveAux]
  | case2 u stack visited diags hv ih =>
    rw [resolveAux, resolveAux]
    simp only [if_pos hv]
    exact ih
  | case3 u stack visited diags hv hu ih =>
    rw [resolveAux, resolveAux]
    simp only [if_neg hv, if_pos hu]
    rw [← hg u hu]
    exact ih
  | case4 u stack visited diags hv hu ih =>
    rw [resolveAux, resolveAux]
    simp only [if_neg hv, if_neg hu]
    exact ih

/-- The two-file cyclic import graph: A imports B and B imports A. -/
def abImports : String → List String :=
  fun u => if u = "A" then ["B"] else if u = "B" then ["A"] else []

/-- C3: import resolution is total (`resolve` is defined by well-founded
recursion, so it terminates on every graph, cyclic ones included), the
visited set records each file at most once per resolution pass, and on the
two-file cycle A ↔ B the pass finishes having visited each of A and B
exactly once and produces an informational cycle diagnostic rather than a
failure. -/
theorem resolver_cycle_tolerant (g : String → List String)
    (univ : List String) (root : String) :
    ((resolve g univ root).1).Nodup ∧
    resolve abImports ["A", "B"] "A" = (["B", "A"], [cycleDiag "A"]) := by
  constructor
  · exact resolveAux_visited_nodup g univ [root] [] [] List.nodup_nil
  · simp [resolve, resolveAux, abImports]

/-- Modelled from the spec: the direct imports of a file, read from its text
snapshot; a file without a snapshot has no resolvable imports. -/
def importsOfSnap (snap : String → Option String) (u : String) :
    List String :=
  match snap u with
  | some t => (parseText t).imports
  | none => []

/-- The analyzer's view of a parse result's definitions: the template names
with their positional definition locations. -/
def defsOfResult (r : ParseResult) : List TemplateDef :=
  r.templates.enum.map (fun p => ⟨p.2.name, p.1⟩)

/-- Modelled from the spec: the cached analysis snapshot of one document
version — AST, resolved files, the scope's symbol definitions (direct
definitions first, then definitions pulled from resolved imports), the
parser and resolver diagnostics, and the duplicate-name structural
errors. -/
structure Analysis where
  ast : ParseResult
  resolvedFiles : List String
  scopeDefs : List TemplateDef
  diags : List Diagnostic
  semDiags : List SemDiag
deriving DecidableEq, Repr

/-- Modelled from the spec: the analysis of a document version — a function
of the document text and the text snapshots of its import graph only: parse
the text, resolve the transitive import closure inside the workspace
universe, gather the scope's definitions from the file and its resolved
  imports, and compute the duplicate-name diagnostics. -/
def analyze (text : String) (univ : List String)
    (snap : String → Option String) : Analysis :=
  let ast := parseText text
  let res := resolveAux (importsOfSnap snap) univ ast.imports [] []
  let importedDefs := res.1.flatMap (fun v =>
    match snap v with
    | some t => defsOfResult (parseText t)
    | none => [])
  ⟨ast, res.1, defsOfResult ast ++ importedDefs, ast.diags ++ res.2,
    duplicateDiags (defsOfResult ast)⟩

theorem bind_congr_of_mem {α β : Type} (l : List α) (f₁ f₂ : α → List β)
    (h : ∀ x ∈ l, f₁ x = f₂ x) : l.flatMap f₁ = l.flatMap f₂ := by
  induction l with
  | nil => rfl
  | cons a t ih =>
    simp only [List.flatMap_cons]
    rw [h a (List.mem_cons_self a t),
        ih (fun x hx => h x (List.mem_cons_of_mem a hx))]

/-- C7: parsing and analysis are deterministic — the parser applied to
identical text yields identical ASTs and diagnostic sets, and the analysis
of a document version is a pure function of its text plus the text
snapshots of its import graph: two snapshot functions that agree on the
workspace's files yield structurally identical analyses. -/
theorem analysis_pure (t₁ t₂ : String) (univ : List String)
    (snap₁ snap₂ : String → Option String) (htext : t₁ = t₂)
    (hsnap : ∀ u ∈ univ, snap₁ u = snap₂ u) :
    parseText t₁ = parseText t₂ ∧
    analyze t₁ univ snap₁ = analyze t₂ univ snap₂ := by
  subst htext
  refine ⟨rfl, ?_⟩
  have hg : ∀ u ∈ univ, importsOfSnap snap₁ u = importsOfSnap snap₂ u := by
    intro u hu
    simp [importsOfSnap, hsnap u hu]
  have hres : resolveAux (importsOfSnap snap₁) univ (parseText t₁).imports [] []
      = resolveAux (importsOfSnap snap₂) univ (parseText t₁).imports [] [] :=
    resolveAux_congr _ _ univ hg _ _ _
  have hsub : ∀ x ∈ (resolveAux (importsOfSnap snap₂) univ
      (parseText t₁).imports [] []).1, x ∈ univ := by
    intro x hx
    rcases resolveAux_visited_subset (importsOfSnap snap₂) univ
        (parseText t₁).imports [] [] x hx with h | h
    · exact h
    · simp at h
  have hbind : (resolveAux (importsOfSnap snap₂) univ
        (parseText t₁).imports [] []).1.flatMap
        (fun v => match snap₁ v with
          | some t => defsOfResult (parseText t)
          | none => [])
      = (resolveAux (importsOfSnap snap₂) univ
        (parseText t₁).imports [] []).1.flatMap
        (fun v => match snap₂ v with
          | some t => defsOfResult (parseText t)
          | none => []) := by
    apply bind_congr_of_mem
    intro v hv
    rw [hsnap v (hsub v hv)]
  simp only [analyze]
  rw [hres, hbind]

/-- A concrete snapshot store: only `x.lg` is readable. -/
def snapA : String → Option String :=
  fun u => if u = "x.lg" then some "# B" else none

/-- A second snapshot store agreeing with `snapA` on `x.lg` but differing
outside the workspace universe. -/
def snapB : String → Option String :=
  fun u => if u = "x.lg" then some "# B" else some "@@@"

/-- Witness for `analysis_pure`: two stores agreeing on the universe
`["x.lg"]` yield the same analysis of the document `"# A"`. -/
theorem analysis_pure_witness :
    ("# A" = "# A") ∧ (∀ u ∈ ["x.lg"], snapA u = snapB u) ∧
    (parseText "# A" = parseText "# A" ∧
      analyze "# A" ["x.lg"] snapA = analyze "# A" ["x.lg"] snapB) :=
  ⟨rfl, by decide,
    analysis_pure "# A" "# A" ["x.lg"] snapA snapB rfl (by decide)⟩

end LgServer

namespace Header

/-- C8: `setLocale(selectedLang, projectId)` is dispatched exactly when the
changed option exists and bears a non-empty key different from the current
locale — and when no dispatcher call is made (option undefined, empty key,
or key equal to the current locale) the locale state is left unchanged. -/
theorem onLanguageChange_dispatch_iff (locale projectId : String)
    (option : Option IDropdownOption) :
    (∀ c, onLanguageChange locale projectId option = some c ↔
      ∃ o, option = some o ∧ o.key ≠ "" ∧ o.key ≠ locale ∧
        c = ⟨o.key, projectId⟩) ∧
    (onLanguageChange locale projectId option = none →
      localeAfter locale projectId option = locale) := by
  constructor
  · intro c
    cases option with
    | none => simp [onLanguageChange]
    | some o =>
      by_cases h1 : o.key = ""
      · simp [onLanguageChange, h1]
      · by_cases h2 : o.key = locale
        · simp [onLanguageChange, h1, h2]
        · simp [onLanguageChange, h1, h2, eq_comm]
          constructor
          · intro h
            exact ⟨fun he => h1 he.symm, fun hl => h2 hl.symm, h⟩
          · rintro ⟨k1, k2, h⟩
            exact h
  · intro h
    simp [localeAfter, h]

/-- Witness for `onLanguageChange_dispatch_iff`: with no changed option the
handler makes no dispatcher call and the locale stays `en-US`. -/
theorem onLanguageChange_dispatch_iff_witness :
    onLanguageChange "en-US" "p1" none = none ∧
    localeAfter "en-US" "p1" none = "en-US" :=
  ⟨by decide,
    (onLanguageChange_dispatch_iff "en-US" "p1" none).2 (by decide)⟩

/-- C9: the dropdown's options are exactly the enabled entries of the
language template list, each mapped to an option whose key and title are the
entry's locale and whose text is the entry's language; disabled entries
never appear. -/
theorem languageListOptions_exactly_enabled
    (languageList : List LanguageTemplateItem) :
    ∀ o, o ∈ languageListOptions languageList ↔
      ∃ item ∈ languageList, item.isEnabled = true ∧
        o = ⟨item.locale, item.locale, item.language⟩ := by
  intro o
  simp only [languageListOptions, List.mem_map, List.mem_filter]
  constructor
  · rintro ⟨item, ⟨hi, he⟩, rfl⟩
    exact ⟨item, hi, he, rfl⟩
  · rintro ⟨item, hi, he, rfl⟩
    exact ⟨item, ⟨hi, he⟩, rfl⟩

/-- C10: the update-available icon button appears in the rendered header
exactly when `appUpdate.status` is `UPDATE_AVAILABLE` and `appUpdate.showing`
is false — `showUpdateAvailableIcon` is that conjunction. -/
theorem update_icon_rendered_iff (isShow showBubble : Bool)
    (status : AppUpdaterStatus) (showing : Bool) :
    (HeaderElement.updateAvailableIcon
        ∈ rightSectionElements isShow showBubble status showing ↔
      (status = AppUpdaterStatus.updateAvailable ∧ showing = false)) ∧
    showUpdateAvailableIcon status showing
      = ((status == AppUpdaterStatus.updateAvailable) && !showing) := by
  refine ⟨?_, rfl⟩
  cases status <;> cases showing <;> cases isShow <;> cases showBubble <;>
    simp [rightSectionElements, showUpdateAvailableIcon]

end Header
